import Mathlib

/-!
Shallow embedding of the daily-problem bot (`src/bot.py`).

The persistent state consists of the SQLite table `problems`
(`id INTEGER PRIMARY KEY AUTOINCREMENT, latex TEXT, source TEXT,
used INTEGER DEFAULT 0, added_at TEXT`) and the single `meta` row
holding the integer `skip_offset`.  We model it as a `Store`:
the table contents as a list of rows (in insertion order; the
auto-increment id is modelled by the `next_id` counter), and the
`skip_offset` value.  `used` is kept as a `Nat` because the column
is an INTEGER in the schema; the code only ever writes 0 or 1 into
it, which is proved as an invariant rather than assumed.
-/

/-- A row of the `problems` table. -/
structure Problem where
  id : Nat
  latex : String
  source : String
  used : Nat
  added_at : String
deriving Repr, DecidableEq

/-- The persistent database state: the `problems` table plus the
`skip_offset` value of the `meta` table.  `next_id` models the
AUTOINCREMENT counter for the primary key. -/
structure Store where
  problems : List Problem
  skip_offset : Int
  next_id : Nat
deriving Repr, DecidableEq

/-- `init_db` on a fresh database file: empty `problems` table,
`skip_offset` initialised to 0, auto-increment counter at 1. -/
def init_db : Store := { problems := [], skip_offset := 0, next_id := 1 }

/-- `get_skip_offset`: `SELECT value FROM meta WHERE key = 'skip_offset'`. -/
def get_skip_offset (s : Store) : Int := s.skip_offset

/-- `set_skip_offset`: `UPDATE meta SET value = ? WHERE key = 'skip_offset'`. -/
def set_skip_offset (value : Int) (s : Store) : Store :=
  { s with skip_offset := value }

/-- `total_problems_count`: `SELECT COUNT(*) FROM problems`. -/
def total_problems_count (s : Store) : Nat := s.problems.length

/-- `used_problems_count`: `SELECT COUNT(*) FROM problems WHERE used = 1`. -/
def used_problems_count (s : Store) : Nat :=
  (s.problems.filter (fun p => p.used == 1)).length

/-- `remaining_problems_count`: `SELECT COUNT(*) FROM problems WHERE used = 0`. -/
def remaining_problems_count (s : Store) : Nat :=
  (s.problems.filter (fun p => p.used == 0)).length

/-- One insertion step of sorting the table rows by `id`. -/
def insertById (p : Problem) : List Problem → List Problem
  | [] => [p]
  | q :: qs => if p.id ≤ q.id then p :: q :: qs else q :: insertById p qs

/-- `ORDER BY id ASC`: the table rows sorted by ascending `id`
(insertion sort). -/
def sortById : List Problem → List Problem
  | [] => []
  | p :: ps => insertById p (sortById ps)

/-- `get_problem_by_index(idx)`:
`SELECT id, latex, source FROM problems ORDER BY id ASC LIMIT 1 OFFSET idx-1`,
guarded by `if idx <= 0: return None`.  The transaction contains no
writes, so the returned store is the input store unchanged. -/
def get_problem_by_index (s : Store) (idx : Int) : Option (Nat × String × String) × Store :=
  if idx ≤ 0 then (none, s)
  else
    (((sortById s.problems)[(idx - 1).toNat]?).map (fun p => (p.id, p.latex, p.source)), s)

/-- `mark_used(pid)`: `UPDATE problems SET used = 1 WHERE id = pid`. -/
def mark_used (pid : Nat) (s : Store) : Store :=
  { s with problems :=
      s.problems.map (fun p => if p.id = pid then { p with used := 1 } else p) }

/-- `pick_next_with_skip()`: logical index = used count + 1 + skip offset;
return `None` if it exceeds the total, otherwise fetch that position,
mark it used and return `(logical_index, latex, source)`. -/
def pick_next_with_skip (s : Store) : Option (Int × String × String) × Store :=
  let usados := used_problems_count s
  let skip := get_skip_offset s
  let total := total_problems_count s
  let logical_index : Int := (usados : Int) + 1 + skip
  if logical_index > (total : Int) then (none, s)
  else
    match (get_problem_by_index s logical_index).1 with
    | none => (none, (get_problem_by_index s logical_index).2)
    | some (pid, latex, source) =>
        (some (logical_index, latex, source),
         mark_used pid (get_problem_by_index s logical_index).2)

/-- The "next logical problem number" as computed by the code
(`logical_index = usados + 1 + skip` in `pick_next_with_skip`, and
`numero_siguiente_logico = usados + 1 + skip` in `on_ready`). -/
def next_logical_index (s : Store) : Int :=
  (used_problems_count s : Int) + 1 + get_skip_offset s

/-- Python `str.strip()`: drop leading and trailing whitespace. -/
def pyStrip (t : String) : String :=
  ⟨((t.data.dropWhile Char.isWhitespace).reverse.dropWhile Char.isWhitespace).reverse⟩

/-- Helper for `pySplit`: scan the characters, accumulating the current
word (in reverse) and emitting it at each whitespace run or at the end. -/
def wordsAux : List Char → List Char → List String
  | [], acc => if acc.isEmpty then [] else [⟨acc.reverse⟩]
  | c :: cs, acc =>
    if c.isWhitespace then
      if acc.isEmpty then wordsAux cs [] else ⟨acc.reverse⟩ :: wordsAux cs []
    else wordsAux cs (c :: acc)

/-- Python `str.split()` with no argument: split on whitespace runs,
discarding empty pieces. -/
def pySplit (content : String) : List String := wordsAux content.data []

/-- Python `str.isdigit()` for ASCII content: nonempty and all digits. -/
def pyIsDigit (t : String) : Bool := !t.data.isEmpty && t.data.all Char.isDigit

/-- Python `int()` on a digit string: decimal value. -/
def pyInt (t : String) : Nat :=
  t.data.foldl (fun a c => a * 10 + (c.toNat - 48)) 0

/-- Python `str.startswith(pre)`. -/
def pyStartsWith (pre t : String) : Bool :=
  t.data.take pre.data.length == pre.data

/-- One entry of the JSON import file: `it["latex"]` is required,
`it.get("source", "")` is optional. -/
structure Entry where
  latex : String
  source : Option String
deriving Repr, DecidableEq

/-- The duplicate check of `import_json`:
`SELECT COUNT(*) FROM problems WHERE latex = ? AND source = ?` is nonzero. -/
def pairExists (s : Store) (latex source : String) : Bool :=
  s.problems.any (fun p => p.latex == latex && p.source == source)

/-- `INSERT INTO problems(latex, source, used, added_at) VALUES (?, ?, 0, ?)`:
the AUTOINCREMENT primary key assigns `next_id` and bumps the counter. -/
def insert_problem (s : Store) (latex source added_at : String) : Store :=
  { s with
      problems := s.problems ++ [{ id := s.next_id, latex := latex, source := source,
                                   used := 0, added_at := added_at }],
      next_id := s.next_id + 1 }

/-- The `for it in items` loop of `import_json`: for each entry, strip
`latex` and `source`, skip it if the (latex, source) pair already
exists, otherwise insert it and count it in `added`. -/
def import_loop (now : String) : List Entry → Store → Nat × Store
  | [], s => (0, s)
  | it :: rest, s =>
    let latex := pyStrip it.latex
    let source := pyStrip (it.source.getD "")
    if pairExists s latex source then import_loop now rest s
    else
      ((import_loop now rest (insert_problem s latex source now)).1 + 1,
       (import_loop now rest (insert_problem s latex source now)).2)

/-- `import_json`: the database-visible effect of importing a parsed
item list (`now` stands for `datetime.now(tz=TZ).isoformat()`).  A
missing file, a JSON decode error or an empty list change nothing;
the first two never reach the loop, the `if not items` guard models
the third.  The `Nat` component is the `added` counter the function
reports. -/
def import_json (items : List Entry) (now : String) (s : Store) : Nat × Store :=
  if items.isEmpty then (0, s)
  else import_loop now items s

/- The `pySplit`, `pyIsDigit`, `pyInt`, `pyStartsWith` helpers above model
the Python string operations used by `on_message`. -/

/-- The reply `on_message` sends for a `!skip` message. -/
inductive SkipReply where
  /-- message does not start with `!skip`: handler does nothing -/
  | ignored
  /-- "Uso: `!skip <número...>`" -/
  | usage
  /-- "No hay problemas en la base de datos." -/
  | noProblems
  /-- "El número debe estar entre 1 y {total}." -/
  | outOfRange (total : Nat)
  /-- "El problema #{n} ya está por detrás del progreso actual (usados = {usados})." -/
  | behindProgress (n usados : Nat)
  /-- "✅ Hoy se configuró para enviar el problema #{n}." -/
  | ok (n : Nat) (nuevo_skip : Int)
deriving Repr, DecidableEq

/-- The `on_message` handler (`bot.py` lines 233-273): parse and
validate the `!skip <n>` command and persist the new skip offset
`n - (usados + 1)` when accepted. -/
def on_message (s : Store) (content : String) : SkipReply × Store :=
  if pyStartsWith "!skip" content then
    let parts := pySplit content
    if parts.length != 2 || !pyIsDigit (parts.getD 1 "") then (.usage, s)
    else
      let n : Nat := pyInt (parts.getD 1 "")
      let total := total_problems_count s
      if total = 0 then (.noProblems, s)
      else if n ≤ 0 || total < n then (.outOfRange total, s)
      else
        let usados := used_problems_count s
        let nuevo_skip : Int := (n : Int) - ((usados : Int) + 1)
        if nuevo_skip < 0 then (.behindProgress n usados, s)
        else (.ok n nuevo_skip, set_skip_offset nuevo_skip s)
  else (.ignored, s)

/-- What the daily task sends to the problem channel. -/
inductive DailyOutcome where
  /-- "❌ No hay problemas en la base de datos." -/
  | noDB
  /-- "❌ Faltan problemas en la base de datos (todos usados)." -/
  | allUsed
  /-- "❌ No hay problema disponible con el skip actual." -/
  | noAvailable
  /-- header "📌 Problema #{logical_index}" plus the latex block and source line -/
  | sent (logical_index : Int) (latex source : String)
deriving Repr, DecidableEq

/-- The body of the `daily_problem` task (`bot.py` lines 276-312):
run the JSON import, bail out on an empty or fully-used store, otherwise
pick (and mark) the next problem with the current skip offset. -/
def daily_problem (items : List Entry) (now : String) (s : Store) : DailyOutcome × Store :=
  let s1 := (import_json items now s).2
  if total_problems_count s1 = 0 then (.noDB, s1)
  else if remaining_problems_count s1 = 0 then (.allUsed, s1)
  else
    match (pick_next_with_skip s1).1 with
    | none => (.noAvailable, (pick_next_with_skip s1).2)
    | some (li, latex, source) => (.sent li latex source, (pick_next_with_skip s1).2)

/-- One state transition of the system: any of the operations the
program ever runs against the database. -/
inductive Step : Store → Store → Prop
  | imp (items : List Entry) (now : String) (s : Store) :
      Step s (import_json items now s).2
  | pick (s : Store) : Step s (pick_next_with_skip s).2
  | msg (content : String) (s : Store) : Step s (on_message s content).2
  | byIndex (idx : Int) (s : Store) : Step s (get_problem_by_index s idx).2
  | daily (items : List Entry) (now : String) (s : Store) :
      Step s (daily_problem items now s).2

/-- Database states reachable from a fresh database. -/
inductive Reachable : Store → Prop
  | init : Reachable init_db
  | step {s s' : Store} : Reachable s → Step s s' → Reachable s'

/-! ## Invariants of the table -/

/-- The rows are listed in strictly ascending `id` order.  This holds for
all reachable stores because ids come from the AUTOINCREMENT counter. -/
def IdSorted (l : List Problem) : Prop := l.Pairwise (fun a b => a.id < b.id)

/-- Every row is still unused. -/
def AllUnused (l : List Problem) : Prop := ∀ p ∈ l, p.used = 0

/-- Every `used` cell holds 0 or 1 (the only values the code writes). -/
def FlagsBinary (l : List Problem) : Prop := ∀ p ∈ l, p.used = 0 ∨ p.used = 1

/-- No two rows share the same `(latex, source)` pair. -/
def PairsUnique (l : List Problem) : Prop :=
  l.Pairwise (fun a b => ¬(a.latex = b.latex ∧ a.source = b.source))

/-- The global invariant maintained by every database operation. -/
def StoreInv (s : Store) : Prop :=
  IdSorted s.problems ∧ (∀ p ∈ s.problems, p.id < s.next_id) ∧
    FlagsBinary s.problems ∧ 0 ≤ s.skip_offset ∧ PairsUnique s.problems

/-- The table after its first `k` rows (in list order) are marked used:
the state reached from an all-unused table by `k` plain-mode picks. -/
def setUsedFirst : Nat → List Problem → List Problem
  | _, [] => []
  | 0, l => l
  | k + 1, p :: ps => { p with used := 1 } :: setUsedFirst k ps

/-- The store after `k` consecutive calls of `pick_next_with_skip`
(discarding the returned problems). -/
def pickIter (s : Store) (k : Nat) : Store :=
  (fun t => (pick_next_with_skip t).2)^[k] s

/-- Marking a list of row ids used one after the other (`mark_used` folded). -/
def markAll (pids : List Nat) (s : Store) : Store :=
  pids.foldl (fun t pid => mark_used pid t) s

instance (l : List Problem) : Decidable (IdSorted l) :=
  inferInstanceAs (Decidable (l.Pairwise _))

instance (l : List Problem) : Decidable (AllUnused l) :=
  inferInstanceAs (Decidable (∀ p ∈ l, p.used = 0))

instance (l : List Problem) : Decidable (FlagsBinary l) :=
  inferInstanceAs (Decidable (∀ p ∈ l, p.used = 0 ∨ p.used = 1))

instance (l : List Problem) : Decidable (PairsUnique l) :=
  inferInstanceAs (Decidable (l.Pairwise _))

instance (s : Store) : Decidable (StoreInv s) :=
  inferInstanceAs (Decidable (_ ∧ _))

/-- Sample rows for evaluating the theorems on concrete stores. -/
def exRow1 : Problem := { id := 1, latex := "A", source := "X", used := 0, added_at := "t1" }

def exRow2 : Problem := { id := 2, latex := "B", source := "", used := 0, added_at := "t2" }

def exRow3 : Problem := { id := 3, latex := "C", source := "Y", used := 0, added_at := "t3" }

/-! ## Basic lemmas about sorting and counting -/

theorem insertById_of_le (p q : Problem) (qs : List Problem) (h : p.id ≤ q.id) :
    insertById p (q :: qs) = p :: q :: qs := by
  simp [insertById, h]

theorem sortById_eq_self {l : List Problem} (h : IdSorted l) : sortById l = l := by
  induction l with
  | nil => rfl
  | cons p ps ih =>
    rw [sortById, ih h.of_cons]
    cases ps with
    | nil => rfl
    | cons q qs =>
      exact insertById_of_le _ _ _
        (le_of_lt (List.rel_of_pairwise_cons h (List.mem_cons_self q qs)))

theorem length_insertById (p : Problem) (l : List Problem) :
    (insertById p l).length = l.length + 1 := by
  induction l with
  | nil => rfl
  | cons q qs ih =>
    by_cases h : p.id ≤ q.id <;> simp [insertById, h, ih]

theorem length_sortById (l : List Problem) : (sortById l).length = l.length := by
  induction l with
  | nil => rfl
  | cons p ps ih => simp [sortById, length_insertById, ih]

theorem counts_split {l : List Problem} (h : FlagsBinary l) :
    (l.filter (fun p => p.used == 1)).length + (l.filter (fun p => p.used == 0)).length
      = l.length := by
  induction l with
  | nil => rfl
  | cons p ps ih =>
    have hps : FlagsBinary ps := fun q hq => h q (List.mem_cons_of_mem _ hq)
    have := ih hps
    rcases h p (List.mem_cons_self p ps) with h01 | h01 <;>
      simp [List.filter_cons, h01] <;> omega

/-! ## Effect and preservation lemmas -/

theorem get_problem_by_index_snd (s : Store) (idx : Int) :
    (get_problem_by_index s idx).2 = s := by
  unfold get_problem_by_index
  split <;> rfl

theorem storeInv_mark_used (pid : Nat) {s : Store} (h : StoreInv s) :
    StoreInv (mark_used pid s) := by
  obtain ⟨hsort, hbnd, hflag, hoff, huniq⟩ := h
  refine ⟨?_, ?_, ?_, hoff, ?_⟩
  · rw [IdSorted, mark_used, List.pairwise_map]
    refine hsort.imp ?_
    intro a b hab
    by_cases ha : a.id = pid <;> by_cases hb : b.id = pid <;> simp [ha, hb] <;> omega
  · intro q hq
    rcases List.mem_map.mp hq with ⟨p, hp, rfl⟩
    have := hbnd p hp
    by_cases hid : p.id = pid <;> simp [mark_used, hid] <;> omega
  · intro q hq
    rcases List.mem_map.mp hq with ⟨p, hp, rfl⟩
    by_cases hid : p.id = pid <;> simp [hid]
    exact hflag p hp
  · rw [PairsUnique, mark_used, List.pairwise_map]
    refine huniq.imp ?_
    intro a b hab
    by_cases ha : a.id = pid <;> by_cases hb : b.id = pid <;> simpa [ha, hb] using hab

theorem storeInv_insert {s : Store} (h : StoreInv s) (latex source now : String)
    (hdup : pairExists s latex source = false) :
    StoreInv (insert_problem s latex source now) := by
  obtain ⟨hsort, hbnd, hflag, hoff, huniq⟩ := h
  simp only [pairExists, List.any_eq_false, Bool.and_eq_true, beq_iff_eq, not_and] at hdup
  refine ⟨?_, ?_, ?_, hoff, ?_⟩
  · rw [IdSorted, insert_problem, List.pairwise_append]
    refine ⟨hsort, List.pairwise_singleton _ _, ?_⟩
    intro a ha b hb
    rcases List.mem_singleton.mp hb with rfl
    exact hbnd a ha
  · intro q hq
    rcases List.mem_append.mp hq with hq | hq
    · exact Nat.lt_succ_of_lt (hbnd q hq)
    · rcases List.mem_singleton.mp hq with rfl
      exact Nat.lt_succ_self _
  · intro q hq
    rcases List.mem_append.mp hq with hq | hq
    · exact hflag q hq
    · rcases List.mem_singleton.mp hq with rfl
      exact Or.inl rfl
  · rw [PairsUnique, insert_problem, List.pairwise_append]
    refine ⟨huniq, List.pairwise_singleton _ _, ?_⟩
    intro a ha b hb hcontra
    rcases List.mem_singleton.mp hb with rfl
    exact hdup a ha hcontra.1 hcontra.2

theorem storeInv_import_loop (now : String) (items : List Entry) {s : Store}
    (h : StoreInv s) : StoreInv (import_loop now items s).2 := by
  induction items generalizing s with
  | nil => exact h
  | cons it rest ih =>
    simp only [import_loop]
    by_cases hd : pairExists s (pyStrip it.latex) (pyStrip (it.source.getD "")) = true
    · rw [if_pos hd]
      exact ih h
    · rw [if_neg hd]
      exact ih (storeInv_insert h _ _ _ (Bool.eq_false_iff.mpr hd))

theorem storeInv_import_json (items : List Entry) (now : String) {s : Store}
    (h : StoreInv s) : StoreInv (import_json items now s).2 := by
  rw [import_json]
  split
  · exact h
  · exact storeInv_import_loop now items h

theorem storeInv_pick {s : Store} (h : StoreInv s) :
    StoreInv (pick_next_with_skip s).2 := by
  simp only [pick_next_with_skip]
  split
  · exact h
  · split
    · rw [get_problem_by_index_snd]
      exact h
    · rw [get_problem_by_index_snd]
      exact storeInv_mark_used _ h

theorem storeInv_on_message {s : Store} (content : String) (h : StoreInv s) :
    StoreInv (on_message s content).2 := by
  obtain ⟨hsort, hbnd, hflag, hoff, huniq⟩ := h
  simp only [on_message]
  split
  · split
    · exact ⟨hsort, hbnd, hflag, hoff, huniq⟩
    · split
      · exact ⟨hsort, hbnd, hflag, hoff, huniq⟩
      · split
        · exact ⟨hsort, hbnd, hflag, hoff, huniq⟩
        · split
          · exact ⟨hsort, hbnd, hflag, hoff, huniq⟩
          · rename_i hguard
            exact ⟨hsort, hbnd, hflag,
              by simpa [set_skip_offset] using le_of_not_lt hguard, huniq⟩
  · exact ⟨hsort, hbnd, hflag, hoff, huniq⟩

theorem storeInv_daily {s : Store} (items : List Entry) (now : String)
    (h : StoreInv s) : StoreInv (daily_problem items now s).2 := by
  have h1 : StoreInv (import_json items now s).2 := storeInv_import_json items now h
  simp only [daily_problem]
  split
  · exact h1
  · split
    · exact h1
    · split
      · exact storeInv_pick h1
      · exact storeInv_pick h1

theorem storeInv_init : StoreInv init_db := by
  refine ⟨List.Pairwise.nil, ?_, ?_, le_refl 0, List.Pairwise.nil⟩ <;> intro p hp <;> cases hp

theorem step_inv {s s' : Store} (h : StoreInv s) (hstep : Step s s') : StoreInv s' := by
  cases hstep with
  | imp items now s => exact storeInv_import_json items now h
  | pick s => exact storeInv_pick h
  | msg content s => exact storeInv_on_message content h
  | byIndex idx s => rw [get_problem_by_index_snd]; exact h
  | daily items now s => exact storeInv_daily items now h

theorem reachable_inv {s : Store} (h : Reachable s) : StoreInv s := by
  induction h with
  | init => exact storeInv_init
  | step _ hstep ih => exact step_inv ih hstep

/-! ## States whose first k rows are marked used -/

theorem setUsedFirst_nil (k : Nat) : setUsedFirst k [] = [] := by
  cases k <;> rfl

theorem setUsedFirst_zero (l : List Problem) : setUsedFirst 0 l = l := by
  cases l <;> rfl

theorem setUsedFirst_succ_cons (k : Nat) (p : Problem) (ps : List Problem) :
    setUsedFirst (k + 1) (p :: ps) = { p with used := 1 } :: setUsedFirst k ps := rfl

theorem length_setUsedFirst (k : Nat) (l : List Problem) :
    (setUsedFirst k l).length = l.length := by
  induction l generalizing k with
  | nil => simp [setUsedFirst_nil]
  | cons p ps ih =>
    cases k with
    | zero => rw [setUsedFirst_zero]
    | succ k => simp [setUsedFirst_succ_cons, ih]

theorem getElem?_setUsedFirst (k i : Nat) (l : List Problem) :
    (setUsedFirst k l)[i]? =
      if i < k then (l[i]?).map (fun p => { p with used := 1 }) else l[i]? := by
  induction l generalizing k i with
  | nil => simp [setUsedFirst_nil]
  | cons p ps ih =>
    cases k with
    | zero => simp [setUsedFirst_zero]
    | succ k =>
      cases i with
      | zero => simp [setUsedFirst_succ_cons]
      | succ i =>
        simpa [setUsedFirst_succ_cons, Nat.succ_lt_succ_iff] using ih k i

theorem mem_setUsedFirst {q : Problem} {k : Nat} {l : List Problem}
    (hq : q ∈ setUsedFirst k l) : ∃ p ∈ l, q = p ∨ q = { p with used := 1 } := by
  induction l generalizing k with
  | nil => rw [setUsedFirst_nil] at hq; cases hq
  | cons p ps ih =>
    cases k with
    | zero =>
      rw [setUsedFirst_zero] at hq
      exact ⟨q, hq, Or.inl rfl⟩
    | succ k =>
      rw [setUsedFirst_succ_cons] at hq
      rcases List.mem_cons.mp hq with rfl | hq
      · exact ⟨p, List.mem_cons_self _ _, Or.inr rfl⟩
      · rcases ih hq with ⟨r, hr, hcase⟩
        exact ⟨r, List.mem_cons_of_mem _ hr, hcase⟩

theorem idSorted_setUsedFirst {l : List Problem} (k : Nat) (h : IdSorted l) :
    IdSorted (setUsedFirst k l) := by
  induction l generalizing k with
  | nil => rw [setUsedFirst_nil]; exact List.Pairwise.nil
  | cons p ps ih =>
    cases k with
    | zero => rw [setUsedFirst_zero]; exact h
    | succ k =>
      rw [setUsedFirst_succ_cons]
      rcases List.pairwise_cons.mp h with ⟨hhead, htail⟩
      refine List.pairwise_cons.mpr ⟨?_, ih k htail⟩
      intro q hq
      rcases mem_setUsedFirst hq with ⟨r, hr, hcase⟩
      have := hhead r hr
      rcases hcase with rfl | rfl <;> simpa using this

theorem usedCount_allUnused {l : List Problem} (hu : AllUnused l) :
    (l.filter (fun p => p.used == 1)).length = 0 := by
  rw [List.length_eq_zero, List.filter_eq_nil_iff]
  intro p hp
  simp [hu p hp]

theorem usedCount_setUsedFirst {l : List Problem} (k : Nat) (hu : AllUnused l)
    (hk : k ≤ l.length) :
    ((setUsedFirst k l).filter (fun p => p.used == 1)).length = k := by
  induction l generalizing k with
  | nil =>
    rw [setUsedFirst_nil]
    simpa using Nat.le_antisymm hk (Nat.zero_le k) |>.symm
  | cons p ps ih =>
    cases k with
    | zero =>
      rw [setUsedFirst_zero]
      exact usedCount_allUnused hu
    | succ k =>
      have hups : AllUnused ps := fun q hq => hu q (List.mem_cons_of_mem _ hq)
      have hk' : k ≤ ps.length := Nat.succ_le_succ_iff.mp (by simpa using hk)
      simp [setUsedFirst_succ_cons, List.filter_cons, ih k hups hk']

theorem markList_eq_self {pid : Nat} {l : List Problem} (h : ∀ r ∈ l, r.id ≠ pid) :
    l.map (fun p => if p.id = pid then { p with used := 1 } else p) = l := by
  induction l with
  | nil => rfl
  | cons q qs ih =>
    rw [List.map_cons, if_neg (h q (List.mem_cons_self _ _)),
      ih fun r hr => h r (List.mem_cons_of_mem _ hr)]

theorem mark_setUsedFirst {l : List Problem} {k : Nat} {p : Problem}
    (hsort : IdSorted l) (hget : l[k]? = some p) :
    (setUsedFirst k l).map (fun q => if q.id = p.id then { q with used := 1 } else q)
      = setUsedFirst (k + 1) l := by
  induction l generalizing k with
  | nil => simp at hget
  | cons q qs ih =>
    cases k with
    | zero =>
      rw [List.getElem?_cons_zero, Option.some_inj] at hget
      subst hget
      rw [setUsedFirst_zero, setUsedFirst_succ_cons, List.map_cons, if_pos rfl,
        setUsedFirst_zero,
        markList_eq_self fun r hr => Nat.ne_of_gt (List.rel_of_pairwise_cons hsort hr)]
    | succ k =>
      rw [List.getElem?_cons_succ] at hget
      have hpqs : p ∈ qs := by
        rcases List.getElem?_eq_some.mp hget with ⟨hik, rfl⟩
        exact List.getElem_mem hik
      have hqp : q.id < p.id := List.rel_of_pairwise_cons hsort hpqs
      rw [setUsedFirst_succ_cons, setUsedFirst_succ_cons, List.map_cons,
        if_neg (show ({ q with used := 1 } : Problem).id ≠ p.id from Nat.ne_of_lt hqp),
        ih hsort.of_cons hget]

/-! ## How one pick transforms a first-k-used state -/

theorem get_problem_by_index_pos {s : Store} (hsort : IdSorted s.problems) {idx : Int}
    (h1 : 1 ≤ idx) :
    get_problem_by_index s idx =
      ((s.problems[(idx - 1).toNat]?).map (fun p => (p.id, p.latex, p.source)), s) := by
  rw [get_problem_by_index, if_neg (by omega), sortById_eq_self hsort]

theorem pick_at_state {l : List Problem} (nid k : Nat)
    (hsort : IdSorted l) (hu : AllUnused l) (hk : k ≤ l.length) :
    pick_next_with_skip { problems := setUsedFirst k l, skip_offset := 0, next_id := nid } =
      match l[k]? with
      | some p => (some (((k : Nat) : Int) + 1, p.latex, p.source),
          { problems := setUsedFirst (k + 1) l, skip_offset := 0, next_id := nid })
      | none => (none, { problems := setUsedFirst k l, skip_offset := 0, next_id := nid }) := by
  have hsort' : IdSorted (setUsedFirst k l) := idSorted_setUsedFirst k hsort
  have husa : used_problems_count ⟨setUsedFirst k l, 0, nid⟩ = k :=
    usedCount_setUsedFirst k hu hk
  have htot : total_problems_count ⟨setUsedFirst k l, 0, nid⟩ = l.length := by
    simpa [total_problems_count] using length_setUsedFirst k l
  by_cases hlt : k < l.length
  · obtain ⟨p, hp⟩ : ∃ p, l[k]? = some p := by
      rw [List.getElem?_eq_getElem hlt]
      exact ⟨_, rfl⟩
    rw [hp]
    simp only [pick_next_with_skip, husa, htot, get_skip_offset]
    rw [if_neg (by omega)]
    rw [get_problem_by_index_pos hsort' (by omega)]
    have hidx : (((k : Int) + 1 + 0 - 1)).toNat = k := by omega
    rw [hidx, getElem?_setUsedFirst, if_neg (lt_irrefl k), hp]
    have hmark :
        (mark_used p.id { problems := setUsedFirst k l, skip_offset := 0, next_id := nid } :
            Store)
          = { problems := setUsedFirst (k + 1) l, skip_offset := 0, next_id := nid } :=
      congrArg (fun pr => Store.mk pr 0 nid) (mark_setUsedFirst hsort hp)
    show (some ((k : Int) + 1 + 0, p.latex, p.source),
        mark_used p.id { problems := setUsedFirst k l, skip_offset := 0, next_id := nid }) = _
    rw [hmark]
    simp
  · have hke : k = l.length := Nat.le_antisymm hk (Nat.le_of_not_lt hlt)
    have hnone : l[k]? = none := by
      rw [List.getElem?_eq_none_iff]
      omega
    rw [hnone]
    simp only [pick_next_with_skip, husa, htot, get_skip_offset]
    rw [if_pos (by omega)]

theorem pickIter_state {l : List Problem} (nid : Nat)
    (hsort : IdSorted l) (hu : AllUnused l) (k : Nat) (hk : k ≤ l.length) :
    pickIter { problems := l, skip_offset := 0, next_id := nid } k =
      { problems := setUsedFirst k l, skip_offset := 0, next_id := nid } := by
  induction k with
  | zero =>
    rw [pickIter, Function.iterate_zero_apply, setUsedFirst_zero]
  | succ k ih =>
    have hk' : k ≤ l.length := Nat.le_of_succ_le hk
    have hlt : k < l.length := hk
    obtain ⟨p, hp⟩ : ∃ p, l[k]? = some p := by
      rw [List.getElem?_eq_getElem hlt]
      exact ⟨_, rfl⟩
    rw [pickIter, Function.iterate_succ_apply']
    rw [show (fun t => (pick_next_with_skip t).2)^[k]
          ({ problems := l, skip_offset := 0, next_id := nid } : Store) =
        pickIter { problems := l, skip_offset := 0, next_id := nid } k from rfl, ih hk']
    rw [pick_at_state nid k hsort hu hk', hp]

/-! ## Claim theorems -/

/-- C1: The daily selection (`pick_next_with_skip`, implementing
NextUnused) never returns a row already marked used: starting from a
store of N never-before-used rows (skip offset 0, as after a fresh
fresh import), for every k < N the (k+1)-th consecutive call returns exactly
the (k+1)-th row in ascending id order — a row still unused in the store
that call sees — so the N calls return each row exactly once, in
ascending id order, and the (N+1)-th call returns none. -/
theorem nextUnused_each_row_once
    (l : List Problem) (nid : Nat) (hsort : IdSorted l) (hu : AllUnused l) :
    (∀ k, k < l.length →
      ∃ p, l[k]? = some p ∧
        (pick_next_with_skip (pickIter ⟨l, 0, nid⟩ k)).1
          = some ((k : Int) + 1, p.latex, p.source) ∧
        p ∈ (pickIter ⟨l, 0, nid⟩ k).problems ∧ p.used = 0) ∧
    (pick_next_with_skip (pickIter ⟨l, 0, nid⟩ l.length)).1 = none := by
  constructor
  · intro k hk
    obtain ⟨p, hp⟩ : ∃ p, l[k]? = some p := by
      rw [List.getElem?_eq_getElem hk]
      exact ⟨_, rfl⟩
    refine ⟨p, hp, ?_, ?_, ?_⟩
    · rw [pickIter_state nid hsort hu k (Nat.le_of_lt hk),
        pick_at_state nid k hsort hu (Nat.le_of_lt hk), hp]
    · rw [pickIter_state nid hsort hu k (Nat.le_of_lt hk)]
      have : (setUsedFirst k l)[k]? = some p := by
        rw [getElem?_setUsedFirst, if_neg (lt_irrefl k), hp]
      rcases List.getElem?_eq_some.mp this with ⟨hik, hval⟩
      exact hval ▸ List.getElem_mem hik
    · rcases List.getElem?_eq_some.mp hp with ⟨hik, hval⟩
      exact hu p (hval ▸ List.getElem_mem hik)
  · rw [pickIter_state nid hsort hu l.length (le_refl _),
      pick_at_state nid l.length hsort hu (le_refl _)]
    rw [List.getElem?_eq_none_iff.mpr (le_refl _)]

/-- Witness for C1 at a concrete two-row store. -/
theorem nextUnused_each_row_once_witness :
    (∀ k, k < ([exRow1, exRow2] : List Problem).length →
      ∃ p, [exRow1, exRow2][k]? = some p ∧
        (pick_next_with_skip (pickIter ⟨[exRow1, exRow2], 0, 3⟩ k)).1
          = some ((k : Int) + 1, p.latex, p.source) ∧
        p ∈ (pickIter ⟨[exRow1, exRow2], 0, 3⟩ k).problems ∧ p.used = 0) ∧
    (pick_next_with_skip
        (pickIter ⟨[exRow1, exRow2], 0, 3⟩ ([exRow1, exRow2] : List Problem).length)).1
      = none :=
  nextUnused_each_row_once [exRow1, exRow2] 3 (by decide) (by decide)

/-- C7: `get_problem_by_index` is read-only: any number of repeated
calls leaves the store — every row's used flag and all three counts —
unchanged. -/
theorem byPosition_read_only (s : Store) (idx : Int) (k : Nat) :
    (fun t => (get_problem_by_index t idx).2)^[k] s = s ∧
    ((fun t => (get_problem_by_index t idx).2)^[k] s).problems = s.problems ∧
    total_problems_count ((fun t => (get_problem_by_index t idx).2)^[k] s)
      = total_problems_count s ∧
    used_problems_count ((fun t => (get_problem_by_index t idx).2)^[k] s)
      = used_problems_count s ∧
    remaining_problems_count ((fun t => (get_problem_by_index t idx).2)^[k] s)
      = remaining_problems_count s := by
  have h : (fun t => (get_problem_by_index t idx).2)^[k] s = s := by
    induction k with
    | zero => rfl
    | succ k ih => rw [Function.iterate_succ_apply', ih, get_problem_by_index_snd]
  exact ⟨h, by rw [h], by rw [h], by rw [h], by rw [h]⟩

/-- C6: `get_problem_by_index` returns the n-th row of the table in
ascending id order (1-based) when 1 ≤ n ≤ total, and `None` for every
integer n outside [1, total] — both n ≤ 0 and n > total. -/
theorem byPosition_indexing (s : Store) (hsort : IdSorted s.problems) (n : Int) :
    (1 ≤ n → n ≤ (total_problems_count s : Int) →
      ∃ p, s.problems[(n - 1).toNat]? = some p ∧
        get_problem_by_index s n = (some (p.id, p.latex, p.source), s)) ∧
    ((n < 1 ∨ (total_problems_count s : Int) < n) →
      get_problem_by_index s n = (none, s)) := by
  constructor
  · intro h1 h2
    have hlen : (total_problems_count s : Int) = (s.problems.length : Int) := rfl
    have hlt : (n - 1).toNat < s.problems.length := by omega
    obtain ⟨p, hp⟩ : ∃ p, s.problems[(n - 1).toNat]? = some p := by
      rw [List.getElem?_eq_getElem hlt]
      exact ⟨_, rfl⟩
    refine ⟨p, hp, ?_⟩
    rw [get_problem_by_index_pos hsort h1, hp]
    rfl
  · intro h
    rcases h with h | h
    · rw [get_problem_by_index, if_pos (by omega)]
    · have hlen : (total_problems_count s : Int) = (s.problems.length : Int) := rfl
      rw [get_problem_by_index_pos hsort (by omega)]
      rw [List.getElem?_eq_none_iff.mpr (by omega)]
      rfl

/-- Witness for C6 at a concrete two-row store and n = 2. -/
theorem byPosition_indexing_witness :
    (1 ≤ (2 : Int) →
        (2 : Int) ≤ (total_problems_count ⟨[exRow1, exRow2], 0, 3⟩ : Int) →
      ∃ p, ([exRow1, exRow2] : List Problem)[((2 : Int) - 1).toNat]? = some p ∧
        get_problem_by_index ⟨[exRow1, exRow2], 0, 3⟩ 2
          = (some (p.id, p.latex, p.source), ⟨[exRow1, exRow2], 0, 3⟩)) ∧
    (((2 : Int) < 1 ∨ (total_problems_count ⟨[exRow1, exRow2], 0, 3⟩ : Int) < 2) →
      get_problem_by_index ⟨[exRow1, exRow2], 0, 3⟩ 2 = (none, ⟨[exRow1, exRow2], 0, 3⟩)) :=
  byPosition_indexing ⟨[exRow1, exRow2], 0, 3⟩ (by decide) 2

/-- Helper for C9: the import loop grows the table by exactly the number
of entries it counts as added. -/
theorem import_loop_total (now : String) (items : List Entry) (s : Store) :
    total_problems_count (import_loop now items s).2
      = total_problems_count s + (import_loop now items s).1 := by
  induction items generalizing s with
  | nil => rfl
  | cons it rest ih =>
    simp only [import_loop]
    by_cases hd : pairExists s (pyStrip it.latex) (pyStrip (it.source.getD "")) = true
    · rw [if_pos hd]
      exact ih s
    · rw [if_neg hd]
      have h2 := ih (insert_problem s (pyStrip it.latex) (pyStrip (it.source.getD "")) now)
      have h3 : total_problems_count
          (insert_problem s (pyStrip it.latex) (pyStrip (it.source.getD "")) now)
          = total_problems_count s + 1 := by
        simp [total_problems_count, insert_problem]
      simp only at h2 ⊢
      omega

/-- C9: `import_json` reports as `added` exactly the number of entries
actually inserted: the table size after the import equals the size
before plus the reported count. -/
theorem import_reports_inserted_count (items : List Entry) (now : String) (s : Store) :
    total_problems_count (import_json items now s).2
      = total_problems_count s + (import_json items now s).1 := by
  rw [import_json]
  split
  · rfl
  · exact import_loop_total now items s

/-- Helper for C2: folding `mark_used` over a list of ids acts on the
row list and leaves the skip offset untouched. -/
theorem markAll_problems (pids : List Nat) (s : Store) :
    (markAll pids s).problems = pids.foldl
        (fun lt pid => lt.map (fun p => if p.id = pid then { p with used := 1 } else p))
        s.problems
      ∧ (markAll pids s).skip_offset = s.skip_offset := by
  induction pids generalizing s with
  | nil => exact ⟨rfl, rfl⟩
  | cons pid rest ih =>
    constructor
    · rw [show markAll (pid :: rest) s = markAll rest (mark_used pid s) from rfl,
        (ih (mark_used pid s)).1]
      rfl
    · rw [show markAll (pid :: rest) s = markAll rest (mark_used pid s) from rfl,
        (ih (mark_used pid s)).2]
      rfl

/-- Helper for C2: marking one present-and-unused id increments the used
count by exactly one (ids pairwise distinct). -/
theorem usedCount_markList_fresh {l : List Problem} {pid : Nat}
    (hdist : l.Pairwise (fun a b => a.id ≠ b.id))
    (hp : ∃ p ∈ l, p.id = pid ∧ p.used = 0) :
    ((l.map (fun p => if p.id = pid then { p with used := 1 } else p)).filter
        (fun p => p.used == 1)).length
      = (l.filter (fun p => p.used == 1)).length + 1 := by
  induction l with
  | nil =>
    rcases hp with ⟨p, hmem, _⟩
    cases hmem
  | cons q qs ih =>
    rcases hp with ⟨p, hmem, hpid, hpu⟩
    rcases List.mem_cons.mp hmem with rfl | hmem2
    · rw [List.map_cons, if_pos hpid,
        markList_eq_self fun r hr hrpid =>
          (List.rel_of_pairwise_cons hdist hr) (hpid.trans hrpid.symm)]
      simp [List.filter_cons, hpu]
    · rw [List.map_cons]
      by_cases hq : q.id = pid
      · exact absurd (hq.trans hpid.symm) (List.rel_of_pairwise_cons hdist hmem2)
      · rw [if_neg hq]
        have hrec := ih hdist.of_cons ⟨p, hmem2, hpid, hpu⟩
        rw [List.filter_cons, List.filter_cons]
        by_cases hqu : (q.used == 1) = true
        · rw [if_pos hqu, if_pos hqu]
          simp only [List.length_cons]
          omega
        · rw [if_neg hqu, if_neg hqu]
          omega

/-- Helper for C2: marking preserves pairwise-distinct ids. -/
theorem idsDistinct_markList (pid : Nat) {l : List Problem}
    (h : l.Pairwise (fun a b => a.id ≠ b.id)) :
    (l.map (fun p => if p.id = pid then { p with used := 1 } else p)).Pairwise
      (fun a b => a.id ≠ b.id) := by
  rw [List.pairwise_map]
  refine h.imp ?_
  intro a b hab
  by_cases ha : a.id = pid <;> by_cases hb : b.id = pid <;> simp [ha, hb] <;> omega

/-- Helper for C2: marking k distinct present-and-unused ids makes the
used count grow by exactly k. -/
theorem usedCount_markAll_list {pids : List Nat} {l : List Problem}
    (hdist : l.Pairwise (fun a b => a.id ≠ b.id)) (hnd : pids.Nodup)
    (hmem : ∀ pid ∈ pids, ∃ p ∈ l, p.id = pid ∧ p.used = 0) :
    ((pids.foldl (fun lt pid => lt.map
          (fun p => if p.id = pid then { p with used := 1 } else p)) l).filter
        (fun p => p.used == 1)).length
      = (l.filter (fun p => p.used == 1)).length + pids.length := by
  induction pids generalizing l with
  | nil => simp
  | cons pid rest ih =>
    rw [List.foldl_cons]
    have hinc := usedCount_markList_fresh hdist (hmem pid (List.mem_cons_self _ _))
    have hdist2 := idsDistinct_markList pid hdist
    have hpid_notin : pid ∉ rest := (List.nodup_cons.mp hnd).1
    have hmem2 : ∀ q ∈ rest,
        ∃ p ∈ l.map (fun p => if p.id = pid then { p with used := 1 } else p),
          p.id = q ∧ p.used = 0 := by
      intro q hq
      rcases hmem q (List.mem_cons_of_mem _ hq) with ⟨p, hpl, hpq, hpu⟩
      have hqne : q ≠ pid := fun hcontra => hpid_notin (hcontra ▸ hq)
      have hne : p.id ≠ pid := by
        rw [hpq]
        exact hqne
      refine ⟨p, ?_, hpq, hpu⟩
      have hmm := List.mem_map_of_mem
        (fun r => if r.id = pid then ({ r with used := 1 } : Problem) else r) hpl
      simpa [hne] using hmm
    have hrec := ih hdist2 (List.nodup_cons.mp hnd).2 hmem2
    rw [hrec, hinc]
    simp only [List.length_cons]
    omega

/-- C2: whenever a delivery pick succeeds, the index it reports is the
next logical index, used-count + 1 + offset; and after marking k
distinct existing rows used in an all-unused store with offset o, the
next logical index is exactly k + 1 + o. -/
theorem logical_index_is_used_plus_one_plus_offset (s : Store) (pids : List Nat)
    (hsort : IdSorted s.problems) (hnd : pids.Nodup)
    (hmem : ∀ pid ∈ pids, pid ∈ s.problems.map (fun p => p.id))
    (hu : AllUnused s.problems) :
    (∀ (s0 : Store) (i : Int) (latex source : String) (s' : Store),
        pick_next_with_skip s0 = (some (i, latex, source), s') →
        i = next_logical_index s0) ∧
    next_logical_index (markAll pids s) = (pids.length : Int) + 1 + s.skip_offset := by
  constructor
  · intro s0 i latex source s' hpick
    simp only [pick_next_with_skip] at hpick
    split at hpick
    · exact absurd hpick (by simp)
    · split at hpick
      · exact absurd hpick (by simp)
      · simp only [Prod.mk.injEq, Option.some.injEq] at hpick
        have h1 := hpick.1.1
        rw [next_logical_index, get_skip_offset]
        rw [get_skip_offset] at h1
        omega
  · have hdist : s.problems.Pairwise (fun a b => a.id ≠ b.id) :=
      hsort.imp fun hab => Nat.ne_of_lt hab
    have hmem2 : ∀ pid ∈ pids, ∃ p ∈ s.problems, p.id = pid ∧ p.used = 0 := by
      intro pid hpid
      rcases List.mem_map.mp (hmem pid hpid) with ⟨p, hpl, hpq⟩
      exact ⟨p, hpl, hpq, hu p hpl⟩
    have hcount := usedCount_markAll_list hdist hnd hmem2
    have hzero : (s.problems.filter (fun p => p.used == 1)).length = 0 :=
      usedCount_allUnused hu
    rw [next_logical_index, get_skip_offset, (markAll_problems pids s).2]
    rw [show used_problems_count (markAll pids s)
        = ((markAll pids s).problems.filter (fun p => p.used == 1)).length from rfl]
    rw [(markAll_problems pids s).1, hcount, hzero]
    omega

/-- Witness for C2 at a concrete three-row store with offset 5,
marking the two rows with ids 2 and 1. -/
theorem logical_index_witness :
    (∀ (s0 : Store) (i : Int) (latex source : String) (s' : Store),
        pick_next_with_skip s0 = (some (i, latex, source), s') →
        i = next_logical_index s0) ∧
    next_logical_index (markAll [2, 1] ⟨[exRow1, exRow2, exRow3], 5, 4⟩)
      = (([2, 1] : List Nat).length : Int) + 1
          + (⟨[exRow1, exRow2, exRow3], 5, 4⟩ : Store).skip_offset :=
  logical_index_is_used_plus_one_plus_offset ⟨[exRow1, exRow2, exRow3], 5, 4⟩ [2, 1]
    (by decide) (by decide) (by decide) (by decide)

/-- Helper for C3: the import loop only ever appends rows. -/
theorem import_loop_append (now : String) (items : List Entry) (s : Store) :
    ∃ tail, (import_loop now items s).2.problems = s.problems ++ tail := by
  induction items generalizing s with
  | nil => exact ⟨[], (List.append_nil _).symm⟩
  | cons it rest ih =>
    simp only [import_loop]
    by_cases hd : pairExists s (pyStrip it.latex) (pyStrip (it.source.getD "")) = true
    · rw [if_pos hd]
      exact ih s
    · rw [if_neg hd]
      rcases ih (insert_problem s (pyStrip it.latex) (pyStrip (it.source.getD "")) now)
        with ⟨tail, htail⟩
      refine ⟨Problem.mk s.next_id (pyStrip it.latex) (pyStrip (it.source.getD "")) 0 now
        :: tail, ?_⟩
      rw [htail]
      simp [insert_problem]

/-- Helper for C3: a (latex, source) pair stays present when rows are appended. -/
theorem pairExists_mono {s s2 : Store} (latex source : String)
    (happ : ∃ tail, s2.problems = s.problems ++ tail)
    (h : pairExists s latex source = true) : pairExists s2 latex source = true := by
  rcases happ with ⟨tail, htail⟩
  rw [pairExists] at h ⊢
  rw [htail, List.any_append, h]
  rfl

/-- Helper for C3: after inserting a row its pair is present. -/
theorem pairExists_insert (s : Store) (latex source now : String) :
    pairExists (insert_problem s latex source now) latex source = true := by
  simp [pairExists, insert_problem]

/-- Helper for C3: after the import loop runs, every entry's stripped
(latex, source) pair is present in the store. -/
theorem import_loop_covers (now : String) (items : List Entry) (s : Store) :
    ∀ it ∈ items, pairExists (import_loop now items s).2
        (pyStrip it.latex) (pyStrip (it.source.getD "")) = true := by
  induction items generalizing s with
  | nil =>
    intro it hit
    cases hit
  | cons it0 rest ih =>
    intro it hit
    simp only [import_loop]
    by_cases hd : pairExists s (pyStrip it0.latex) (pyStrip (it0.source.getD "")) = true
    · rw [if_pos hd]
      rcases List.mem_cons.mp hit with rfl | hmem
      · exact pairExists_mono _ _ (import_loop_append now rest s) hd
      · exact ih s it hmem
    · rw [if_neg hd]
      rcases List.mem_cons.mp hit with rfl | hmem
      · exact pairExists_mono _ _
          (import_loop_append now rest
            (insert_problem s (pyStrip it.latex) (pyStrip (it.source.getD "")) now))
          (pairExists_insert s _ _ now)
      · exact ih (insert_problem s (pyStrip it0.latex) (pyStrip (it0.source.getD "")) now)
          it hmem

/-- Helper for C3: when every entry's pair is already present, the loop
inserts nothing and returns count 0. -/
theorem import_loop_noop (now : String) (items : List Entry) (s : Store)
    (h : ∀ it ∈ items, pairExists s (pyStrip it.latex) (pyStrip (it.source.getD "")) = true) :
    import_loop now items s = (0, s) := by
  induction items with
  | nil => rfl
  | cons it rest ih =>
    simp only [import_loop]
    rw [if_pos (h it (List.mem_cons_self _ _))]
    exact ih fun it2 h2 => h it2 (List.mem_cons_of_mem _ h2)

/-- Helper for C3: inserting a not-yet-present pair keeps pairs unique. -/
theorem pairsUnique_insert {s : Store} (latex source now : String)
    (h : PairsUnique s.problems) (hdup : pairExists s latex source = false) :
    PairsUnique (insert_problem s latex source now).problems := by
  simp only [pairExists, List.any_eq_false, Bool.and_eq_true, beq_iff_eq, not_and] at hdup
  rw [PairsUnique, insert_problem]
  simp only
  rw [List.pairwise_append]
  refine ⟨h, List.pairwise_singleton _ _, ?_⟩
  intro a ha b hb hcontra
  rcases List.mem_singleton.mp hb with rfl
  exact hdup a ha hcontra.1 hcontra.2

/-- Helper for C3: the import loop preserves pair-uniqueness. -/
theorem pairsUnique_import_loop (now : String) (items : List Entry) {s : Store}
    (h : PairsUnique s.problems) : PairsUnique (import_loop now items s).2.problems := by
  induction items generalizing s with
  | nil => exact h
  | cons it rest ih =>
    simp only [import_loop]
    by_cases hd : pairExists s (pyStrip it.latex) (pyStrip (it.source.getD "")) = true
    · rw [if_pos hd]
      exact ih h
    · rw [if_neg hd]
      exact ih (pairsUnique_insert _ _ now h (Bool.eq_false_iff.mpr hd))

/-- C3: import is idempotent for (text, source) pairs: re-running
`import_json` on the same input inserts nothing (count 0 and an
unchanged store, so the size after the second import equals the size
after the first), and (latex, source) pairs remain unique. -/
theorem import_idempotent (items : List Entry) (now1 now2 : String) (s : Store)
    (huniq : PairsUnique s.problems) :
    import_json items now2 (import_json items now1 s).2
        = (0, (import_json items now1 s).2) ∧
    total_problems_count (import_json items now2 (import_json items now1 s).2).2
        = total_problems_count (import_json items now1 s).2 ∧
    PairsUnique (import_json items now1 s).2.problems := by
  have hsecond : import_json items now2 (import_json items now1 s).2
      = (0, (import_json items now1 s).2) := by
    rw [import_json, import_json]
    split
    · rfl
    · exact import_loop_noop now2 items _ (import_loop_covers now1 items s)
  refine ⟨hsecond, by rw [hsecond], ?_⟩
  rw [import_json]
  split
  · exact huniq
  · exact pairsUnique_import_loop now1 items huniq

/-- Witness for C3: importing the same two entries twice into a fresh store. -/
theorem import_idempotent_witness :
    import_json [⟨" A ", some "X"⟩, ⟨"B", none⟩] "t2"
        (import_json [⟨" A ", some "X"⟩, ⟨"B", none⟩] "t1" init_db).2
      = (0, (import_json [⟨" A ", some "X"⟩, ⟨"B", none⟩] "t1" init_db).2) ∧
    total_problems_count (import_json [⟨" A ", some "X"⟩, ⟨"B", none⟩] "t2"
        (import_json [⟨" A ", some "X"⟩, ⟨"B", none⟩] "t1" init_db).2).2
      = total_problems_count (import_json [⟨" A ", some "X"⟩, ⟨"B", none⟩] "t1" init_db).2 ∧
    PairsUnique (import_json [⟨" A ", some "X"⟩, ⟨"B", none⟩] "t1" init_db).2.problems :=
  import_idempotent [⟨" A ", some "X"⟩, ⟨"B", none⟩] "t1" "t2" init_db (by decide)

/-- C10: in every reachable store, total = used + remaining: the code
only ever writes 0 or 1 into the used flag, an invariant preserved by
every operation (import, pick/mark-used, offset update, lookup). -/
theorem total_eq_used_plus_remaining {s : Store} (h : Reachable s) :
    total_problems_count s = used_problems_count s + remaining_problems_count s := by
  have hflag : FlagsBinary s.problems := (reachable_inv h).2.2.1
  have hsplit := counts_split hflag
  rw [total_problems_count, used_problems_count, remaining_problems_count]
  omega

/-- Witness for C10: the store reached by one daily delivery cycle after
the import of one entry into a fresh database. -/
theorem total_eq_used_plus_remaining_witness :
    total_problems_count (daily_problem [⟨"A", some "X"⟩] "t" init_db).2
      = used_problems_count (daily_problem [⟨"A", some "X"⟩] "t" init_db).2
        + remaining_problems_count (daily_problem [⟨"A", some "X"⟩] "t" init_db).2 :=
  total_eq_used_plus_remaining
    (Reachable.step Reachable.init (Step.daily [⟨"A", some "X"⟩] "t" init_db))

/-- Helper for C4/C5: a pick whose logical index exceeds the total
returns `None` and changes nothing. -/
theorem pick_skip_none {s : Store}
    (hgt : next_logical_index s > (total_problems_count s : Int)) :
    pick_next_with_skip s = (none, s) := by
  simp only [pick_next_with_skip]
  rw [if_pos (by exact hgt)]

/-- Helper for C4/C5: a pick whose logical index is within the table
returns the row at that logical position and marks it used. -/
theorem pick_success {s : Store} (hsort : IdSorted s.problems)
    (hoff : 0 ≤ s.skip_offset)
    (hle : next_logical_index s ≤ (total_problems_count s : Int)) :
    ∃ p, s.problems[(next_logical_index s - 1).toNat]? = some p ∧
      pick_next_with_skip s
        = (some (next_logical_index s, p.latex, p.source), mark_used p.id s) := by
  have hgo : get_skip_offset s = s.skip_offset := rfl
  have h1 : 1 ≤ next_logical_index s := by
    rw [next_logical_index, hgo]
    omega
  have hlen : (total_problems_count s : Int) = (s.problems.length : Int) := rfl
  have hlt : (next_logical_index s - 1).toNat < s.problems.length := by omega
  obtain ⟨p, hp⟩ : ∃ p, s.problems[(next_logical_index s - 1).toNat]? = some p := by
    rw [List.getElem?_eq_getElem hlt]
    exact ⟨_, rfl⟩
  refine ⟨p, hp, ?_⟩
  simp only [pick_next_with_skip]
  rw [if_neg (by exact not_lt.mpr hle)]
  rw [show ((used_problems_count s : Int) + 1 + get_skip_offset s) = next_logical_index s
    from rfl]
  rw [get_problem_by_index_pos hsort h1, hp]
  rfl

/-- C4: offset-mode delivery.  When the logical index (used + 1 + offset)
exceeds the total, the cycle is skipped with a notice ("no problem
available with the current skip" when the store is nonempty and has
unused rows; the empty-store / all-used notices otherwise) and the store
is unchanged — no row marked used.  Otherwise the row at the logical
position is marked used and the offset is left unchanged by the
delivery.  (`items = []` so the daily import is a no-op.) -/
theorem offset_mode_delivery (s : Store) (now : String)
    (hsort : IdSorted s.problems) (hflag : FlagsBinary s.problems)
    (hoff : 0 ≤ s.skip_offset) :
    (next_logical_index s > (total_problems_count s : Int) →
      daily_problem [] now s
        = (if total_problems_count s = 0 then DailyOutcome.noDB
           else if remaining_problems_count s = 0 then DailyOutcome.allUsed
           else DailyOutcome.noAvailable, s)) ∧
    (next_logical_index s ≤ (total_problems_count s : Int) →
      ∃ p, s.problems[(next_logical_index s - 1).toNat]? = some p ∧
        daily_problem [] now s
          = (DailyOutcome.sent (next_logical_index s) p.latex p.source, mark_used p.id s) ∧
        (mark_used p.id s).skip_offset = s.skip_offset) := by
  have himp : (import_json [] now s).2 = s := rfl
  constructor
  · intro hgt
    simp only [daily_problem, himp]
    by_cases h0 : total_problems_count s = 0
    · rw [if_pos h0, if_pos h0]
    · rw [if_neg h0, if_neg h0]
      by_cases hr : remaining_problems_count s = 0
      · rw [if_pos hr, if_pos hr]
      · rw [if_neg hr, if_neg hr, pick_skip_none hgt]
  · intro hle
    have hgo : get_skip_offset s = s.skip_offset := rfl
    have hsplit := counts_split hflag
    have e1 : used_problems_count s
        = (s.problems.filter (fun p => p.used == 1)).length := rfl
    have e2 : remaining_problems_count s
        = (s.problems.filter (fun p => p.used == 0)).length := rfl
    have e3 : total_problems_count s = s.problems.length := rfl
    have hle2 : (used_problems_count s : Int) + 1 + s.skip_offset
        ≤ (total_problems_count s : Int) := by
      rw [next_logical_index, hgo] at hle
      exact hle
    have h0 : total_problems_count s ≠ 0 := by omega
    have hr : remaining_problems_count s ≠ 0 := by omega
    obtain ⟨p, hp, hpick⟩ := pick_success hsort hoff hle
    refine ⟨p, hp, ?_, rfl⟩
    simp only [daily_problem, himp]
    rw [if_neg h0, if_neg hr, hpick]

/-- Witness for C4 at a concrete two-row store with offset 0. -/
theorem offset_mode_delivery_witness :
    (next_logical_index ⟨[exRow1, exRow2], 0, 3⟩
        > (total_problems_count ⟨[exRow1, exRow2], 0, 3⟩ : Int) →
      daily_problem [] "t" ⟨[exRow1, exRow2], 0, 3⟩
        = (if total_problems_count ⟨[exRow1, exRow2], 0, 3⟩ = 0 then DailyOutcome.noDB
           else if remaining_problems_count ⟨[exRow1, exRow2], 0, 3⟩ = 0 then
             DailyOutcome.allUsed
           else DailyOutcome.noAvailable, ⟨[exRow1, exRow2], 0, 3⟩)) ∧
    (next_logical_index ⟨[exRow1, exRow2], 0, 3⟩
        ≤ (total_problems_count ⟨[exRow1, exRow2], 0, 3⟩ : Int) →
      ∃ p, ([exRow1, exRow2] : List Problem)[
          (next_logical_index ⟨[exRow1, exRow2], 0, 3⟩ - 1).toNat]? = some p ∧
        daily_problem [] "t" ⟨[exRow1, exRow2], 0, 3⟩
          = (DailyOutcome.sent (next_logical_index ⟨[exRow1, exRow2], 0, 3⟩)
              p.latex p.source, mark_used p.id ⟨[exRow1, exRow2], 0, 3⟩) ∧
        (mark_used p.id ⟨[exRow1, exRow2], 0, 3⟩).skip_offset
          = (⟨[exRow1, exRow2], 0, 3⟩ : Store).skip_offset) :=
  offset_mode_delivery ⟨[exRow1, exRow2], 0, 3⟩ "t" (by decide) (by decide) (by decide)

/-- C5: the `!skip n` override.  A requested n whose resulting logical
index (which equals n) would be ≤ the current used-count is rejected
and the store — in particular the persisted offset — is unchanged.  An
accepted n (in range, n > used-count) persists the new offset
n - (used-count + 1), and the next scheduled pick then lands exactly on
logical index n. -/
theorem skip_command_override (s : Store) (content : String) (n : Nat)
    (hstart : pyStartsWith "!skip" content = true)
    (hparts : (pySplit content).length = 2)
    (hdigit : pyIsDigit ((pySplit content).getD 1 "") = true)
    (hval : pyInt ((pySplit content).getD 1 "") = n)
    (hsort : IdSorted s.problems) :
    (n ≤ used_problems_count s →
      (on_message s content).2 = s ∧
      ∀ (m : Nat) (off : Int), (on_message s content).1 ≠ SkipReply.ok m off) ∧
    (used_problems_count s < n → n ≤ total_problems_count s →
      on_message s content
        = (SkipReply.ok n ((n : Int) - ((used_problems_count s : Int) + 1)),
           set_skip_offset ((n : Int) - ((used_problems_count s : Int) + 1)) s) ∧
      ∃ p, s.problems[n - 1]? = some p ∧
        (pick_next_with_skip
            (set_skip_offset ((n : Int) - ((used_problems_count s : Int) + 1)) s)).1
          = some ((n : Int), p.latex, p.source)) := by
  have hcond : (((pySplit content).length != 2)
      || !pyIsDigit ((pySplit content).getD 1 "")) = false := by
    rw [hparts, hdigit]
    rfl
  simp only [on_message, hstart, if_true, hcond, Bool.false_eq_true, if_false, hval,
    Bool.or_eq_true, decide_eq_true_eq]
  constructor
  · intro hn
    by_cases h0 : total_problems_count s = 0
    · rw [if_pos h0]
      exact ⟨rfl, fun m off hcontra => by simp at hcontra⟩
    · rw [if_neg h0]
      by_cases h1 : n ≤ 0 ∨ total_problems_count s < n
      · rw [if_pos h1]
        exact ⟨rfl, fun m off hcontra => by simp at hcontra⟩
      · rw [if_neg h1]
        rw [if_pos (show (n : Int) - ((used_problems_count s : Int) + 1) < 0 by omega)]
        exact ⟨rfl, fun m off hcontra => by simp at hcontra⟩
  · intro hlt hle
    have h0 : total_problems_count s ≠ 0 := by omega
    rw [if_neg h0, if_neg (show ¬(n ≤ 0 ∨ total_problems_count s < n) by omega),
      if_neg (show ¬((n : Int) - ((used_problems_count s : Int) + 1) < 0) by omega)]
    refine ⟨rfl, ?_⟩
    have hnl : next_logical_index
        (set_skip_offset ((n : Int) - ((used_problems_count s : Int) + 1)) s) = (n : Int) := by
      rw [next_logical_index,
        show get_skip_offset
            (set_skip_offset ((n : Int) - ((used_problems_count s : Int) + 1)) s)
          = (n : Int) - ((used_problems_count s : Int) + 1) from rfl,
        show used_problems_count
            (set_skip_offset ((n : Int) - ((used_problems_count s : Int) + 1)) s)
          = used_problems_count s from rfl]
      omega
    have htot : total_problems_count
        (set_skip_offset ((n : Int) - ((used_problems_count s : Int) + 1)) s)
          = total_problems_count s := rfl
    obtain ⟨p, hp, hpick⟩ := pick_success
      (show IdSorted
          (set_skip_offset ((n : Int) - ((used_problems_count s : Int) + 1)) s).problems
        from hsort)
      (show (0 : Int)
          ≤ (set_skip_offset ((n : Int) - ((used_problems_count s : Int) + 1)) s).skip_offset
        by
          rw [show (set_skip_offset ((n : Int) - ((used_problems_count s : Int) + 1))
              s).skip_offset = (n : Int) - ((used_problems_count s : Int) + 1) from rfl]
          omega)
      (by
        rw [hnl, htot]
        omega)
    rw [hnl] at hp hpick
    rw [show ((n : Int) - 1).toNat = n - 1 by omega] at hp
    exact ⟨p, hp, by rw [hpick]⟩

/-- Witness for C5: `!skip 2` on a three-row store with nothing used. -/
theorem skip_command_override_witness :
    (2 ≤ used_problems_count ⟨[exRow1, exRow2, exRow3], 0, 4⟩ →
      (on_message ⟨[exRow1, exRow2, exRow3], 0, 4⟩ "!skip 2").2
          = ⟨[exRow1, exRow2, exRow3], 0, 4⟩ ∧
      ∀ (m : Nat) (off : Int),
        (on_message ⟨[exRow1, exRow2, exRow3], 0, 4⟩ "!skip 2").1 ≠ SkipReply.ok m off) ∧
    (used_problems_count ⟨[exRow1, exRow2, exRow3], 0, 4⟩ < 2 →
      2 ≤ total_problems_count ⟨[exRow1, exRow2, exRow3], 0, 4⟩ →
      on_message ⟨[exRow1, exRow2, exRow3], 0, 4⟩ "!skip 2"
        = (SkipReply.ok 2 ((2 : Int)
            - ((used_problems_count ⟨[exRow1, exRow2, exRow3], 0, 4⟩ : Int) + 1)),
           set_skip_offset ((2 : Int)
            - ((used_problems_count ⟨[exRow1, exRow2, exRow3], 0, 4⟩ : Int) + 1))
            ⟨[exRow1, exRow2, exRow3], 0, 4⟩) ∧
      ∃ p, ([exRow1, exRow2, exRow3] : List Problem)[2 - 1]? = some p ∧
        (pick_next_with_skip (set_skip_offset ((2 : Int)
            - ((used_problems_count ⟨[exRow1, exRow2, exRow3], 0, 4⟩ : Int) + 1))
            ⟨[exRow1, exRow2, exRow3], 0, 4⟩)).1
          = some ((2 : Int), p.latex, p.source)) :=
  skip_command_override ⟨[exRow1, exRow2, exRow3], 0, 4⟩ "!skip 2" 2
    (by decide) (by decide) (by decide) (by decide) (by decide)

/-- C8: inbound command validation: for a `!skip` message, every
deviation — wrong argument count, non-integer argument, or out-of-range
value (including an empty store, where every value is out of range) —
yields a notice reply to the invoker and leaves the persisted state
(offset and used flags) unchanged. -/
theorem skip_command_validation (s : Store) (content : String)
    (hstart : pyStartsWith "!skip" content = true)
    (hdev : (pySplit content).length ≠ 2 ∨
      pyIsDigit ((pySplit content).getD 1 "") = false ∨
      pyInt ((pySplit content).getD 1 "") = 0 ∨
      total_problems_count s < pyInt ((pySplit content).getD 1 "")) :
    (on_message s content).2 = s ∧
    ((on_message s content).1 = SkipReply.usage ∨
     (on_message s content).1 = SkipReply.noProblems ∨
     (on_message s content).1 = SkipReply.outOfRange (total_problems_count s)) := by
  simp only [on_message, hstart, if_true, Bool.or_eq_true, decide_eq_true_eq]
  by_cases hbad : ((pySplit content).length != 2) = true
      ∨ (!pyIsDigit ((pySplit content).getD 1 "")) = true
  · rw [if_pos hbad]
    exact ⟨rfl, Or.inl rfl⟩
  · rw [if_neg hbad]
    have hbad2 := hbad
    simp only [not_or, Bool.not_eq_true, bne_eq_false_iff_eq, Bool.not_eq_false] at hbad2
    rcases hdev with hdev | hdev | hdev | hdev
    · exact absurd hbad2.1 hdev
    · rw [hdev] at hbad2
      simp at hbad2
    · by_cases h0 : total_problems_count s = 0
      · rw [if_pos h0]
        exact ⟨rfl, Or.inr (Or.inl rfl)⟩
      · rw [if_neg h0,
          if_pos (show pyInt ((pySplit content).getD 1 "") ≤ 0
              ∨ total_problems_count s < pyInt ((pySplit content).getD 1 "") by omega)]
        exact ⟨rfl, Or.inr (Or.inr rfl)⟩
    · by_cases h0 : total_problems_count s = 0
      · rw [if_pos h0]
        exact ⟨rfl, Or.inr (Or.inl rfl)⟩
      · rw [if_neg h0,
          if_pos (show pyInt ((pySplit content).getD 1 "") ≤ 0
              ∨ total_problems_count s < pyInt ((pySplit content).getD 1 "") by omega)]
        exact ⟨rfl, Or.inr (Or.inr rfl)⟩

/-- Witness for C8: a non-integer argument. -/
theorem skip_command_validation_witness :
    (on_message ⟨[exRow1, exRow2], 0, 3⟩ "!skip x").2 = ⟨[exRow1, exRow2], 0, 3⟩ ∧
    ((on_message ⟨[exRow1, exRow2], 0, 3⟩ "!skip x").1 = SkipReply.usage ∨
     (on_message ⟨[exRow1, exRow2], 0, 3⟩ "!skip x").1 = SkipReply.noProblems ∨
     (on_message ⟨[exRow1, exRow2], 0, 3⟩ "!skip x").1
       = SkipReply.outOfRange (total_problems_count ⟨[exRow1, exRow2], 0, 3⟩)) :=
  skip_command_validation ⟨[exRow1, exRow2], 0, 3⟩ "!skip x" (by decide)
    (Or.inr (Or.inl (by decide)))
